import Mathlib

/-!
Verification development for the autograph repository: a shallow embedding
of the pookalam pattern composer (`src/utils/pookalam.jsx`), the animation
state machine, view transform, point sampler and segment partition of
`src/components/DrawingCanvas.jsx`, together with theorems settling the
frozen claims about them.

JavaScript floating-point numbers are modelled as real numbers (`ℝ`) for the
geometry-heavy pattern code and as rationals (`ℚ`) for the purely algebraic
animation / view-transform code.  The seedable RNG `mulberry32`
(`src/utils/rng`) is imported by the source but its implementation is not
part of the given sources; following the spec (§4.1: a seeded stream of
floats in `[0,1)`), its successive outputs are abstracted as explicitly
quantified draws in `[0,1)`.
-/

open Real

namespace Autograph

/-! ## Pattern composer (`src/utils/pookalam.jsx`) -/

/-- `const PHI = (1 + Math.sqrt(5)) / 2`. -/
noncomputable def PHI : ℝ := (1 + Real.sqrt 5) / 2

/-- `const PHI_INV = 1 / PHI`. -/
noncomputable def PHI_INV : ℝ := 1 / PHI

/-- The five keys of the `fractalPatterns` registry, in `Object.keys`
insertion order: fibonacci, dragon, koch, mandelbrot, fern. -/
inductive PatternName where
  | fibonacci | dragon | koch | mandelbrot | fern
deriving DecidableEq, Repr

/-- `Object.keys(fractalPatterns)` (JS insertion order). -/
def patternTypes : List PatternName :=
  [.fibonacci, .dragon, .koch, .mandelbrot, .fern]

/-- JS `ToUint32` of an integer: the 32 low bits, as a natural number.
Used to model JS bitwise operators, which act on 32-bit patterns. -/
def toU32 (x : ℤ) : ℕ := (x % 4294967296).toNat

/-- The JS truthiness test `((n & -n) << 1) & n` in the `dragon` pattern:
all bitwise operators coerce to 32 bits; `<< 1` doubles and drops bit 31;
the branch takes the non-zero case. -/
def dragonTruthy (n : ℤ) : Bool :=
  Nat.land (Nat.land (toU32 n) (toU32 (-n)) * 2 % 4294967296) (toU32 n) ≠ 0

/-- The 8-step escape iteration in the `mandelbrot` pattern:
`z ← z² + (0.3 + 0.1 i)`, recording `magnitude = |z|` each step and
breaking when it exceeds 2; returns the last recorded magnitude. -/
noncomputable def mandelLoop : ℕ → ℝ → ℝ → ℝ → ℝ
  | 0, _, _, mag => mag
  | fuel + 1, zr, zi, _ =>
    let newR := zr * zr - zi * zi + 0.3
    let newI := 2 * zr * zi + 0.1
    let mag := Real.sqrt (newR * newR + newI * newI)
    if 2 < mag then mag else mandelLoop fuel newR newI mag

/-- The `fibonacci` basis function's growth factor
`1 + Math.log(1 + t / (2π)) * PHI_INV`. -/
noncomputable def fibScale (t : ℝ) : ℝ := 1 + Real.log (1 + t / (2 * π)) * PHI_INV

/-- The `fractalPatterns` registry: each entry translated from
`src/utils/pookalam.jsx` lines 8–51.  The `koch` summation loop
(`for i in 0..3`) and the `mandelbrot` escape loop are written out via
`Finset.range` / `mandelLoop`. -/
noncomputable def fractalPatterns (name : PatternName)
    (t scale freq amplitude : ℝ) : ℝ :=
  match name with
  | .fibonacci => scale * fibScale t * (1 + amplitude * Real.sin (freq * t))
  | .dragon =>
      let n : ℤ := ⌊t * freq / (2 * π)⌋
      let dragonValue : ℝ := if dragonTruthy n then 1 else -1
      scale * (1 + amplitude * dragonValue * Real.cos (t * freq))
  | .koch =>
      scale * (1 + amplitude *
        ∑ i ∈ Finset.range 4, Real.cos (freq * 3 ^ i * t) / 3 ^ i)
  | .mandelbrot =>
      let magnitude := mandelLoop 8 (Real.cos t) (Real.sin t) 0
      scale * (1 + amplitude * Real.sin (magnitude * freq * t))
  | .fern =>
      let leaf := Real.exp (-t * 0.5) * Real.cos (freq * t) * Real.sin (t * 2)
      scale * (1 + amplitude * leaf)

/-- `GenerationParameters`: the argument record of `finalPookalam`. -/
structure GenParams where
  size : ℝ
  density : ℝ
  petals : ℝ
  style : ℝ
  complexity : ℝ
  symmetry : ℝ

/-- Point layer tags emitted by the composer. -/
inductive Layer where
  | main | petals | core
deriving DecidableEq, Repr

/-- A point emitted by the composer (`points.push({...})`). -/
structure PookalamPoint where
  x : ℝ
  y : ℝ
  depth : ℝ
  layer : Layer
  color : ℤ
  pattern : PatternName

/-- `numLayers = Math.max(3, Math.floor(params.density * 10))`. -/
noncomputable def numLayers (params : GenParams) : ℕ :=
  (max 3 ⌊params.density * 10⌋).toNat

/-- `mainPetals = Math.max(4, Math.floor(params.petals))`. -/
noncomputable def mainPetals (params : GenParams) : ℤ :=
  max 4 ⌊params.petals⌋

/-- `complexityFactor = params.complexity || 0.7` (JS `||`: a numeric
left operand is falsy exactly when it is `0`, for finite values). -/
noncomputable def complexityFactor (params : GenParams) : ℝ :=
  if params.complexity = 0 then 0.7 else params.complexity

/-- `symmetryFactor = params.symmetry || 1.0`. -/
noncomputable def symmetryFactor (params : GenParams) : ℝ :=
  if params.symmetry = 0 then 1.0 else params.symmetry

/-- Modelled from the spec: the selection
`patternTypes[Math.floor(rand() * patternTypes.length)]`, where `rand` is a
`mulberry32` stream (implementation not among the given sources); per spec
§4.1 each draw is a float `u ∈ [0,1)`, so the selected index is
`⌊u * 5⌋ ∈ {0,…,4}`.  Out-of-range indices (impossible for valid draws)
default to the first registry entry. -/
noncomputable def selectPattern (u : ℝ) : PatternName :=
  patternTypes.getD (⌊u * 5⌋).toNat .fibonacci

/-- The distance-from-origin clamp of the petal-detail branch (lines
148–156): scale the point back onto the circle of radius `baseRadius`
when it lies outside it. -/
noncomputable def clampToOrigin (baseRadius finalX finalY : ℝ) : ℝ × ℝ :=
  let distanceFromOrigin := Real.sqrt (finalX * finalX + finalY * finalY)
  if baseRadius < distanceFromOrigin then
    (finalX * (baseRadius / distanceFromOrigin),
     finalY * (baseRadius / distanceFromOrigin))
  else (finalX, finalY)

/-- One petal-detail point (`points.push` inside the
`for petalIdx` loop, lines 131–166), including the distance-from-origin
clamp (lines 148–156). -/
noncomputable def petalPoint (baseRadius currentRadius amplitude cf t : ℝ)
    (secondary : PatternName) (layerIdx numDetailPetals petalIdx : ℕ) :
    PookalamPoint :=
  let petalAngle := ((petalIdx : ℝ) / (numDetailPetals : ℝ)) * (2 * π)
      + (layerIdx : ℝ) * 0.1
  let petalRadius := currentRadius * (0.4 + cf * 0.3)
  let petalCenterRadius := currentRadius * 0.6
  let petalCenterX := petalCenterRadius * Real.cos petalAngle
  let petalCenterY := petalCenterRadius * Real.sin petalAngle
  let localT := t * (1 + (petalIdx : ℝ) * 0.1) + petalAngle
  let rPetal := fractalPatterns secondary localT (petalRadius * 0.4)
      ((⌊4 + cf * 4⌋ : ℤ) : ℝ) (amplitude * 1.5)
  let finalX := petalCenterX + rPetal * Real.cos localT
  let finalY := petalCenterY + rPetal * Real.sin localT
  let p : ℝ × ℝ := clampToOrigin baseRadius finalX finalY
  { x := p.1, y := p.2, depth := (layerIdx : ℝ) * 50 + 500, layer := .petals,
    color := ((petalIdx : ℤ) + (layerIdx : ℤ)) % 5 + 2, pattern := secondary }

/-- `layerProgress = layerIdx / (numLayers - 1)` (line 85). -/
noncomputable def layerProgress (params : GenParams) (layerIdx : ℕ) : ℝ :=
  (layerIdx : ℝ) / ((numLayers params : ℝ) - 1)

/-- `currentRadius = baseRadius * (1 - layerProgress * 0.9)` (lines 86–87). -/
noncomputable def currentRadius (params : GenParams) (layerIdx : ℕ) : ℝ :=
  params.size * (1 - layerProgress params layerIdx * 0.9)

/-- `amplitude = (0.05 + complexityFactor*0.15) * (1 + sin(layerProgress*π))`
(lines 91–93). -/
noncomputable def layerAmplitude (params : GenParams) (layerIdx : ℕ) : ℝ :=
  (0.05 + complexityFactor params * 0.15)
    * (1 + Real.sin (layerProgress params layerIdx * π))

/-- The blended, clamped main-ring radius `r_main` (lines 96–113): the
primary and secondary basis functions blended by `sin(π*layerProgress)`
and clamped to `currentRadius`. -/
noncomputable def mainRadius (params : GenParams)
    (primary secondary : PatternName) (asymmetryOffset t : ℝ)
    (layerIdx : ℕ) : ℝ :=
  let mp : ℝ := ((mainPetals params : ℤ) : ℝ)
  let patternBlend := Real.sin (layerProgress params layerIdx * π)
  let r1 := fractalPatterns primary t (currentRadius params layerIdx) mp
      (layerAmplitude params layerIdx)
  let r2 := fractalPatterns secondary (t + asymmetryOffset)
      (currentRadius params layerIdx) (mp * 0.7)
      (layerAmplitude params layerIdx * 0.6)
  min (r1 * patternBlend + r2 * (1 - patternBlend))
    (currentRadius params layerIdx)

/-- The clamped core radius `r_core` (lines 170–188): three harmonics of
the primary basis function added to the nominal core radius
`0.25 * currentRadius`, clamped to that nominal radius.  The
`for harmonic = 1..3` loop is written out term by term. -/
noncomputable def coreRadiusFinal (params : GenParams)
    (primary : PatternName) (t : ℝ) (layerIdx : ℕ) : ℝ :=
  let coreRadius := currentRadius params layerIdx * 0.25
  let coreComplexity : ℝ := ((⌊(4 : ℝ) + complexityFactor params * 8⌋ : ℤ) : ℝ)
  let coreAmplitude := layerAmplitude params layerIdx
      * (2 - layerProgress params layerIdx)
  let harmonicTerm : ℕ → ℝ := fun h =>
    fractalPatterns primary (t * (h : ℝ)) (coreRadius / ((h : ℝ) * 2))
      (coreComplexity * (h : ℝ)) (coreAmplitude / (h : ℝ))
      - coreRadius / ((h : ℝ) * 2)
  min (coreRadius + harmonicTerm 1 + harmonicTerm 2 + harmonicTerm 3)
    coreRadius

/-- The points of one `layerIdx` iteration of the composer's main loop
(lines 84–199): the main-ring point, the petal-detail points (only when
`complexityFactor > 0.4`) and the central core point (only when
`layerIdx ≥ numLayers * 0.6`). -/
noncomputable def layerPoints (params : GenParams)
    (primary secondary : PatternName) (asymmetryOffset t : ℝ)
    (layerIdx : ℕ) : List PookalamPoint :=
  let baseRadius := params.size
  let cf := complexityFactor params
  let nL := numLayers params
  let mp : ℝ := ((mainPetals params : ℤ) : ℝ)
  let goldenAngle := 2 * π * PHI_INV
  let rMain := mainRadius params primary secondary asymmetryOffset t layerIdx
  let mainPt : PookalamPoint :=
    { x := rMain * Real.cos t, y := rMain * Real.sin t,
      depth := (layerIdx : ℝ) * 50, layer := .main,
      color := ⌊((layerIdx : ℝ) * 7) / (nL : ℝ)⌋, pattern := primary }
  let petalPts : List PookalamPoint :=
    if 0.4 < cf then
      let numDetailPetals := (⌊mp * (0.5 + cf * 0.5)⌋).toNat
      (List.range numDetailPetals).map
        (petalPoint baseRadius (currentRadius params layerIdx)
          (layerAmplitude params layerIdx) cf t secondary layerIdx
          numDetailPetals)
    else []
  let corePts : List PookalamPoint :=
    if (nL : ℝ) * 0.6 ≤ (layerIdx : ℝ) then
      let rCore := coreRadiusFinal params primary t layerIdx
      [{ x := rCore * Real.cos (t + (layerIdx : ℝ) * goldenAngle),
         y := rCore * Real.sin (t + (layerIdx : ℝ) * goldenAngle),
         depth := (layerIdx : ℝ) * 50 + 1000, layer := .core,
         color := 7 + ((layerIdx : ℤ) % 2), pattern := primary }]
    else []
  mainPt :: (petalPts ++ corePts)

/-- `finalPookalam(params)` applied to an angle `t`
(`src/utils/pookalam.jsx` lines 64–203).  `u1`, `u2`, `u3` are the first
three outputs of `mulberry32(params.style + 54321)` (modelled from the
spec as abstract draws in `[0,1)`; they feed the two pattern selections
and the asymmetry offset, in call order). -/
noncomputable def finalPookalam (params : GenParams) (u1 u2 u3 : ℝ)
    (t : ℝ) : List PookalamPoint :=
  let primary := selectPattern u1
  let secondary := selectPattern u2
  let asymmetryOffset := (1 - symmetryFactor params) * (u3 - 0.5) * 0.3
  (List.range (numLayers params)).flatMap
    (layerPoints params primary secondary asymmetryOffset t)

end Autograph

namespace Autograph

/-! ## C9: layer and petal count derivation -/

/-- Concrete parameter records used by the C9 claim's scenarios. -/
noncomputable def c9DensityParams : GenParams :=
  { size := 100, density := 0.3, petals := 8, style := 1,
    complexity := 0.5, symmetry := 1 }

noncomputable def c9PetalParams : GenParams :=
  { size := 100, density := 0.6, petals := 2, style := 1,
    complexity := 0.5, symmetry := 1 }

/-- C9: for every parameter set the composer derives the layer count as
`max(3, floor(density * 10))` and the petal count as
`max(4, floor(petals))`; in particular `density = 0.3` yields exactly 3
layers and `petals = 2` is clamped to 4. -/
theorem c9_layer_petal_counts :
    (∀ params : GenParams,
        numLayers params = (max 3 ⌊params.density * 10⌋).toNat ∧
        mainPetals params = max 4 ⌊params.petals⌋) ∧
    numLayers c9DensityParams = 3 ∧ mainPetals c9PetalParams = 4 := by
  refine ⟨fun params => ⟨rfl, rfl⟩, ?_, ?_⟩
  · have h : ⌊(0.3 : ℝ) * 10⌋ = 3 := by
      norm_num
    simp [numLayers, c9DensityParams, h]
  · have h : ⌊(2 : ℝ)⌋ = 2 := by
      norm_num
    simp [mainPetals, c9PetalParams, h]

end Autograph

namespace Autograph

/-! ## C2: basis-function envelopes -/

/-- Any value of the shape `s * (1 + a * x)` with `|x| ≤ K` stays within
`s * a * K` of `s` (for nonnegative `s`, `a`). -/
theorem envelope_helper {s a x K : ℝ} (hs : 0 ≤ s) (ha : 0 ≤ a)
    (hx : |x| ≤ K) : |s * (1 + a * x) - s| ≤ s * a * K := by
  have h : s * (1 + a * x) - s = s * a * x := by ring
  rw [h, abs_mul, abs_of_nonneg (mul_nonneg hs ha)]
  exact mul_le_mul_of_nonneg_left hx (mul_nonneg hs ha)

/-- The koch harmonic sum is bounded by `1 + 1/3 + 1/9 + 1/27 = 40/27`. -/
theorem koch_sum_bound (freq t : ℝ) :
    |∑ i ∈ Finset.range 4, Real.cos (freq * 3 ^ i * t) / 3 ^ i| ≤ 40 / 27 := by
  have h : ∀ i ∈ Finset.range 4,
      |Real.cos (freq * 3 ^ i * t) / 3 ^ i| ≤ (1 / 3 : ℝ) ^ i := by
    intro i _
    rw [abs_div, div_pow, one_pow, abs_of_nonneg (by positivity : (0:ℝ) ≤ 3 ^ i)]
    exact div_le_div_of_nonneg_right (Real.abs_cos_le_one _) (by positivity)
  calc |∑ i ∈ Finset.range 4, Real.cos (freq * 3 ^ i * t) / 3 ^ i|
      ≤ ∑ i ∈ Finset.range 4, |Real.cos (freq * 3 ^ i * t) / 3 ^ i| :=
        Finset.abs_sum_le_sum_abs _ _
    _ ≤ ∑ i ∈ Finset.range 4, (1 / 3 : ℝ) ^ i := Finset.sum_le_sum h
    _ = 40 / 27 := by
        simp [Finset.sum_range_succ]
        norm_num

/-- `0 < PHI_INV` and `PHI_INV ≤ 5/8`. -/
theorem phi_inv_bounds : 0 < PHI_INV ∧ PHI_INV ≤ 5 / 8 := by
  have h5 : (2.2 : ℝ) ≤ Real.sqrt 5 := by
    rw [show (2.2 : ℝ) = Real.sqrt (2.2 ^ 2) from
      (Real.sqrt_sq (by norm_num)).symm]
    exact Real.sqrt_le_sqrt (by norm_num)
  have hphi : (1.6 : ℝ) ≤ PHI := by
    unfold PHI; linarith
  have hpos : 0 < PHI := by linarith
  constructor
  · exact div_pos one_pos hpos
  · rw [PHI_INV, div_le_iff₀ hpos]; linarith

/-- For `t ≥ 0`, the fibonacci growth factor is at least 1. -/
theorem one_le_fibScale {t : ℝ} (ht : 0 ≤ t) : 1 ≤ fibScale t := by
  have hπ : (0:ℝ) < π := Real.pi_pos
  have h1 : (1:ℝ) ≤ 1 + t / (2 * π) := by
    have : 0 ≤ t / (2 * π) := div_nonneg ht (by linarith)
    linarith
  have hlog : 0 ≤ Real.log (1 + t / (2 * π)) := Real.log_nonneg h1
  have := phi_inv_bounds.1
  unfold fibScale
  nlinarith

/-- C2 (amended): the dragon, koch and mandelbrot basis functions stay
within `scale * (1 ± amplitude * K)` for `K = 40/27` at every input, fern
does for every `t ≥ 0`, and fibonacci satisfies the same envelope only
around the drifting centre `scale * fibScale t` (with `fibScale t ≥ 1`
growing logarithmically in `t`), not around `scale`. -/
theorem c2_basis_envelopes (t s fr a : ℝ) (hs : 0 ≤ s) (ha : 0 ≤ a) :
    |fractalPatterns .dragon t s fr a - s| ≤ s * a * (40 / 27) ∧
    |fractalPatterns .koch t s fr a - s| ≤ s * a * (40 / 27) ∧
    |fractalPatterns .mandelbrot t s fr a - s| ≤ s * a * (40 / 27) ∧
    (0 ≤ t → |fractalPatterns .fern t s fr a - s| ≤ s * a * (40 / 27)) ∧
    (0 ≤ t →
      |fractalPatterns .fibonacci t s fr a - s * fibScale t|
        ≤ s * fibScale t * a ∧ 1 ≤ fibScale t) := by
  refine ⟨?_, ?_, ?_, ?_, ?_⟩
  · have heq : fractalPatterns .dragon t s fr a
        = s * (1 + a * ((if dragonTruthy ⌊t * fr / (2 * π)⌋ then (1:ℝ)
            else -1) * Real.cos (t * fr))) := by
      simp only [fractalPatterns]
      ring
    rw [heq]
    refine envelope_helper hs ha ?_
    rw [abs_mul]
    have h1 : |if dragonTruthy ⌊t * fr / (2 * π)⌋ then (1:ℝ) else -1| = 1 := by
      split <;> simp
    rw [h1, one_mul]
    linarith [Real.abs_cos_le_one (t * fr)]
  · exact envelope_helper hs ha (koch_sum_bound fr t)
  · refine envelope_helper hs ha ?_
    linarith [Real.abs_sin_le_one (mandelLoop 8 (Real.cos t) (Real.sin t) 0
      * fr * t)]
  · intro ht
    refine envelope_helper hs ha ?_
    have hexp : Real.exp (-t * 0.5) ≤ 1 :=
      Real.exp_le_one_iff.mpr (by nlinarith)
    have hexp0 : 0 < Real.exp (-t * 0.5) := Real.exp_pos _
    calc |Real.exp (-t * 0.5) * Real.cos (fr * t) * Real.sin (t * 2)|
        = Real.exp (-t * 0.5) * (|Real.cos (fr * t)| * |Real.sin (t * 2)|) := by
          rw [abs_mul, abs_mul, abs_of_pos hexp0, mul_assoc]
      _ ≤ 1 * (1 * 1) := by
          refine mul_le_mul hexp ?_ (by positivity) (by norm_num)
          exact mul_le_mul (Real.abs_cos_le_one _) (Real.abs_sin_le_one _)
            (abs_nonneg _) (by norm_num)
      _ ≤ 40 / 27 := by norm_num
  · intro ht
    refine ⟨?_, one_le_fibScale ht⟩
    have hfs : 0 ≤ fibScale t := le_trans zero_le_one (one_le_fibScale ht)
    have h := envelope_helper (K := 1) (mul_nonneg hs hfs) ha
      (Real.abs_sin_le_one (fr * t))
    calc |fractalPatterns .fibonacci t s fr a - s * fibScale t|
        = |s * fibScale t * (1 + a * Real.sin (fr * t)) - s * fibScale t| := by
          show |s * fibScale t * (1 + a * Real.sin (fr * t)) - _| = _
          ring_nf
      _ ≤ s * fibScale t * a * 1 := h
      _ = s * fibScale t * a := by ring

/-- Witness for `c2_basis_envelopes` at `t = 0`, `s = 1`, `fr = 1`,
`a = 1`. -/
theorem c2_basis_envelopes_witness :
    (0:ℝ) ≤ 1 ∧
    (|fractalPatterns .dragon 0 1 1 1 - 1| ≤ 1 * 1 * (40 / 27) ∧
     |fractalPatterns .koch 0 1 1 1 - 1| ≤ 1 * 1 * (40 / 27) ∧
     |fractalPatterns .mandelbrot 0 1 1 1 - 1| ≤ 1 * 1 * (40 / 27) ∧
     ((0:ℝ) ≤ 0 → |fractalPatterns .fern 0 1 1 1 - 1| ≤ 1 * 1 * (40 / 27)) ∧
     ((0:ℝ) ≤ 0 →
       |fractalPatterns .fibonacci 0 1 1 1 - 1 * fibScale 0|
         ≤ 1 * fibScale 0 * 1 ∧ 1 ≤ fibScale 0)) :=
  ⟨by norm_num, c2_basis_envelopes 0 1 1 1 (by norm_num) (by norm_num)⟩

/-- C2 counterexample: at `amplitude = 0` the claimed envelope
`scale * (1 ± amplitude * K)` collapses to `{scale}` for every constant
`K`, yet `fibonacci(2π, 1, 1, 0) = 1 + log 2 / PHI ≠ 1`: the fibonacci
basis function drifts away from `scale`, unboundedly as `t` grows. -/
theorem c2_fibonacci_counterexample :
    fractalPatterns .fibonacci (2 * π) 1 1 0 = 1 + Real.log 2 * PHI_INV ∧
    0 < Real.log 2 * PHI_INV := by
  have hπ : (0:ℝ) < π := Real.pi_pos
  constructor
  · show (1:ℝ) * fibScale (2 * π) * (1 + 0 * Real.sin (1 * (2 * π))) = _
    have h2 : 1 + 2 * π / (2 * π) = (2:ℝ) := by
      field_simp
      norm_num
    rw [fibScale, h2]
    ring
  · exact mul_pos (Real.log_pos (by norm_num)) phi_inv_bounds.1

end Autograph

namespace Autograph

/-! ## C1: bounding invariant of the composer -/

/-- The fibonacci growth factor is nonnegative for every `t ≥ -1/10`
(the composer evaluates basis functions at phases no smaller than the
asymmetry offset, which is at most `0.075` in magnitude). -/
theorem fibScale_nonneg {t : ℝ} (ht : -(1/10) ≤ t) : 0 ≤ fibScale t := by
  have hπ : (3:ℝ) < π := Real.pi_gt_three
  have h2π : (0:ℝ) < 2 * π := by linarith
  have hq : (1/2 : ℝ) ≤ 1 + t / (2 * π) := by
    have hd : -(1/60) ≤ t / (2 * π) := by
      rw [neg_le, ← neg_div, div_le_iff₀ h2π]
      nlinarith
    linarith
  have hlog : Real.log (1/2) ≤ Real.log (1 + t / (2 * π)) :=
    Real.log_le_log (by norm_num) hq
  rw [one_div, Real.log_inv] at hlog
  have hl2 : Real.log 2 < 0.6931471808 := Real.log_two_lt_d9
  have hpi1 := phi_inv_bounds.1
  have hpi2 := phi_inv_bounds.2
  unfold fibScale
  nlinarith [Real.log_nonneg (by norm_num : (1:ℝ) ≤ 2)]

/-- Any value of the shape `s * (1 + a * x)` with `|x| ≤ K` and
`a * K ≤ 1` is nonnegative (for nonnegative `s`, `a`). -/
theorem nonneg_helper {s a x K : ℝ} (hs : 0 ≤ s) (ha : 0 ≤ a)
    (hx : |x| ≤ K) (haK : a * K ≤ 1) : 0 ≤ s * (1 + a * x) := by
  have h3 : a * |x| ≤ a * K := mul_le_mul_of_nonneg_left hx ha
  have h4 : a * -|x| ≤ a * x := mul_le_mul_of_nonneg_left (neg_abs_le x) ha
  have h5 : 0 ≤ 1 + a * x := by
    have : a * -|x| = -(a * |x|) := by ring
    linarith [this ▸ h4]
  exact mul_nonneg hs h5

/-- Every basis function in the registry is nonnegative whenever the
phase is at least `-1/10`, the scale is nonnegative and the amplitude
lies in `[0, 27/40]` — the regime in which the composer calls them on
valid parameters. -/
theorem fractalPatterns_nonneg (name : PatternName) (t s fr a : ℝ)
    (ht : -(1/10) ≤ t) (hs : 0 ≤ s) (ha0 : 0 ≤ a) (ha : a ≤ 27/40) :
    0 ≤ fractalPatterns name t s fr a := by
  cases name with
  | fibonacci =>
    show 0 ≤ s * fibScale t * (1 + a * Real.sin (fr * t))
    have h := nonneg_helper (K := 1) (mul_nonneg hs (fibScale_nonneg ht)) ha0
      (Real.abs_sin_le_one (fr * t)) (by linarith)
    linarith [h]
  | dragon =>
    have heq : fractalPatterns .dragon t s fr a
        = s * (1 + a * ((if dragonTruthy ⌊t * fr / (2 * π)⌋ then (1:ℝ)
            else -1) * Real.cos (t * fr))) := by
      simp only [fractalPatterns]
      ring
    rw [heq]
    refine nonneg_helper (K := 1) hs ha0 ?_ (by linarith)
    rw [abs_mul]
    have h1 : |if dragonTruthy ⌊t * fr / (2 * π)⌋ then (1:ℝ) else -1| = 1 := by
      split <;> simp
    rw [h1, one_mul]
    exact Real.abs_cos_le_one _
  | koch =>
    exact nonneg_helper hs ha0 (koch_sum_bound fr t) (by nlinarith)
  | mandelbrot =>
    exact nonneg_helper (K := 1) hs ha0
      (Real.abs_sin_le_one _) (by linarith)
  | fern =>
    refine nonneg_helper (K := 20/19) hs ha0 ?_ (by nlinarith)
    have h19 : (19/20 : ℝ) ≤ Real.exp (-(1/20)) := by
      have := Real.add_one_le_exp (-(1/20) : ℝ)
      linarith
    have hexp : Real.exp (-t * 0.5) ≤ 20/19 := by
      have hmono : Real.exp (-t * 0.5) ≤ Real.exp (1/20) :=
        Real.exp_le_exp.mpr (by linarith)
      have hpos : (0:ℝ) < Real.exp (-(1/20)) := Real.exp_pos _
      have hinv : Real.exp (1/20 : ℝ) = (Real.exp (-(1/20)))⁻¹ := by
        rw [← Real.exp_neg]; norm_num
      -- exp(1/20) = 1 / exp(-1/20) ≤ 1 / (19/20) = 20/19
      have hle : Real.exp (1/20 : ℝ) ≤ 20/19 := by
        rw [hinv]
        calc (Real.exp (-(1/20)))⁻¹ ≤ ((19:ℝ)/20)⁻¹ :=
              inv_anti₀ (by norm_num) h19
          _ = 20/19 := by norm_num
      linarith
    have hep : 0 < Real.exp (-t * 0.5) := Real.exp_pos _
    calc |Real.exp (-t * 0.5) * Real.cos (fr * t) * Real.sin (t * 2)|
        = Real.exp (-t * 0.5) * (|Real.cos (fr * t)| * |Real.sin (t * 2)|) := by
          rw [abs_mul, abs_mul, abs_of_pos hep, mul_assoc]
      _ ≤ (20/19) * (1 * 1) := by
          refine mul_le_mul hexp ?_ (by positivity) (by norm_num)
          exact mul_le_mul (Real.abs_cos_le_one _) (Real.abs_sin_le_one _)
            (abs_nonneg _) (by norm_num)
      _ = 20/19 := by norm_num

end Autograph

namespace Autograph

/-- Distance from the origin of a polar point `(r cos θ, r sin θ)`. -/
theorem radial_dist (r θ : ℝ) :
    Real.sqrt ((r * Real.cos θ) ^ 2 + (r * Real.sin θ) ^ 2) = |r| := by
  have h : (r * Real.cos θ) ^ 2 + (r * Real.sin θ) ^ 2
      = r ^ 2 * (Real.sin θ ^ 2 + Real.cos θ ^ 2) := by ring
  rw [h, Real.sin_sq_add_cos_sq, mul_one, Real.sqrt_sq_eq_abs]

/-- The clamp of lines 148–156 really does keep the point within
`baseRadius` of the origin. -/
theorem clampToOrigin_bounded (R fx fy : ℝ) (hR : 0 < R) :
    Real.sqrt ((clampToOrigin R fx fy).1 ^ 2 + (clampToOrigin R fx fy).2 ^ 2)
      ≤ R := by
  simp only [clampToOrigin]
  have hfx2 : fx * fx + fy * fy = fx ^ 2 + fy ^ 2 := by ring
  split_ifs with h
  · have hd0 : 0 ≤ Real.sqrt (fx * fx + fy * fy) := Real.sqrt_nonneg _
    have hdpos : 0 < Real.sqrt (fx * fx + fy * fy) := lt_trans hR h
    have hsq : (fx * (R / Real.sqrt (fx * fx + fy * fy))) ^ 2
        + (fy * (R / Real.sqrt (fx * fx + fy * fy))) ^ 2
        = (R / Real.sqrt (fx * fx + fy * fy)) ^ 2 * (fx ^ 2 + fy ^ 2) := by
      ring
    rw [hsq, Real.sqrt_mul (sq_nonneg _), Real.sqrt_sq_eq_abs, ← hfx2,
      abs_of_pos (div_pos hR hdpos), div_mul_cancel₀ R (ne_of_gt hdpos)]
  · rw [← hfx2]
    exact le_of_not_lt h

/-- The blended, clamped main-ring radius lies in `[0, size]` when the two
basis evaluations are nonnegative, the blend weight lies in `[0,1]` and
the layer radius lies in `[0, size]`. -/
theorem min_blend_mem {r1 r2 pw curR size : ℝ} (h1 : 0 ≤ r1) (h2 : 0 ≤ r2)
    (hpw0 : 0 ≤ pw) (hpw1 : pw ≤ 1) (hcur : 0 ≤ curR) (hcs : curR ≤ size) :
    0 ≤ min (r1 * pw + r2 * (1 - pw)) curR ∧
      min (r1 * pw + r2 * (1 - pw)) curR ≤ size := by
  constructor
  · exact le_min (by nlinarith) hcur
  · exact le_trans (min_le_right _ _) hcs

end Autograph

namespace Autograph

/-- Under the documented range `0 ≤ complexity ≤ 1`, the defaulted
complexity factor lies in `(0, 1]`. -/
theorem complexityFactor_mem {params : GenParams}
    (h0 : 0 ≤ params.complexity) (h1 : params.complexity ≤ 1) :
    0 < complexityFactor params ∧ complexityFactor params ≤ 1 := by
  unfold complexityFactor
  split_ifs with h
  · norm_num
  · exact ⟨lt_of_le_of_ne h0 (Ne.symm h), h1⟩

/-- The layer count is at least 3 for every parameter set. -/
theorem three_le_numLayers (params : GenParams) : 3 ≤ numLayers params := by
  unfold numLayers
  calc (3 : ℕ) = ((3 : ℤ)).toNat := rfl
    _ ≤ (max 3 ⌊params.density * 10⌋).toNat :=
        Int.toNat_le_toNat (le_max_left _ _)

/-- `layerProgress` lies in `[0,1]` for every in-range layer index. -/
theorem layerProgress_mem {params : GenParams} {i : ℕ}
    (hi : i < numLayers params) :
    0 ≤ layerProgress params i ∧ layerProgress params i ≤ 1 := by
  have hL := three_le_numLayers params
  have hLr : (3 : ℝ) ≤ (numLayers params : ℝ) := by exact_mod_cast hL
  have hpos : (0 : ℝ) < (numLayers params : ℝ) - 1 := by linarith
  unfold layerProgress
  constructor
  · exact div_nonneg (Nat.cast_nonneg i) (by linarith)
  · rw [div_le_one hpos]
    have : (i : ℝ) + 1 ≤ (numLayers params : ℝ) := by exact_mod_cast hi
    linarith

/-- `currentRadius` lies in `[0, size]`. -/
theorem currentRadius_mem {params : GenParams} {i : ℕ}
    (hsize : 0 < params.size) (hi : i < numLayers params) :
    0 ≤ currentRadius params i ∧ currentRadius params i ≤ params.size := by
  obtain ⟨hlp0, hlp1⟩ := layerProgress_mem hi
  unfold currentRadius
  constructor
  · nlinarith
  · nlinarith

/-- `layerAmplitude` lies in `[0, 2/5]` for documented complexity. -/
theorem layerAmplitude_mem {params : GenParams} (i : ℕ)
    (h0 : 0 ≤ params.complexity) (h1 : params.complexity ≤ 1) :
    0 ≤ layerAmplitude params i ∧ layerAmplitude params i ≤ 2/5 := by
  obtain ⟨hcf0, hcf1⟩ := complexityFactor_mem h0 h1
  have hs1 := Real.sin_le_one (layerProgress params i * π)
  have hs2 := Real.neg_one_le_sin (layerProgress params i * π)
  unfold layerAmplitude
  constructor
  · nlinarith
  · nlinarith

/-- The clamped main-ring radius lies in `[0, size]` for documented
parameter ranges, every `t ≥ 0` and every asymmetry offset of magnitude
at most 3/40. -/
theorem mainRadius_mem {params : GenParams} {off t : ℝ} {i : ℕ}
    (primary secondary : PatternName)
    (hsize : 0 < params.size)
    (hc0 : 0 ≤ params.complexity) (hc1 : params.complexity ≤ 1)
    (ht : 0 ≤ t) (hoff : |off| ≤ 3/40) (hi : i < numLayers params) :
    0 ≤ mainRadius params primary secondary off t i ∧
      mainRadius params primary secondary off t i ≤ params.size := by
  obtain ⟨hlp0, hlp1⟩ := layerProgress_mem hi
  obtain ⟨hcur0, hcurs⟩ := currentRadius_mem hsize hi
  obtain ⟨hamp0, hamp1⟩ := layerAmplitude_mem i hc0 hc1
  have hoff1 : -(3/40 : ℝ) ≤ off := by
    have := neg_abs_le off; linarith
  have hr1 := fractalPatterns_nonneg primary t (currentRadius params i)
    ((mainPetals params : ℤ) : ℝ) (layerAmplitude params i)
    (by linarith) hcur0 hamp0 (by linarith)
  have hr2 := fractalPatterns_nonneg secondary (t + off)
    (currentRadius params i) (((mainPetals params : ℤ) : ℝ) * 0.7)
    (layerAmplitude params i * 0.6)
    (by linarith) hcur0 (by linarith) (by nlinarith)
  have hπ : (0:ℝ) < π := Real.pi_pos
  have hpw0 : 0 ≤ Real.sin (layerProgress params i * π) :=
    Real.sin_nonneg_of_nonneg_of_le_pi (by positivity) (by nlinarith)
  have hpw1 := Real.sin_le_one (layerProgress params i * π)
  simp only [mainRadius]
  exact min_blend_mem hr1 hr2 hpw0 hpw1 hcur0 hcurs

/-- The petal-detail points stay within `baseRadius` of the origin
— direct from the distance clamp. -/
theorem petalPoint_bounded (R curR amp cf t : ℝ) (secondary : PatternName)
    (layerIdx numDetailPetals petalIdx : ℕ) (hR : 0 < R) :
    Real.sqrt
        ((petalPoint R curR amp cf t secondary layerIdx numDetailPetals
            petalIdx).x ^ 2 +
          (petalPoint R curR amp cf t secondary layerIdx numDetailPetals
            petalIdx).y ^ 2)
      ≤ R := by
  simp only [petalPoint]
  exact clampToOrigin_bounded _ _ _ hR

/-- The three-harmonic core radius, clamped to the nominal core radius,
lies in `[0, size]` when the harmonic amplitudes stay within `[0, 27/40]`. -/
theorem core_sum_mem {primary : PatternName} {t coreR cc cAmp size : ℝ}
    (ht : 0 ≤ t) (hcr0 : 0 ≤ coreR) (hcrs : coreR ≤ size)
    (h0 : 0 ≤ cAmp) (h1 : cAmp ≤ 27/40) :
    0 ≤ min (coreR
        + (fractalPatterns primary (t * 1) (coreR / (1 * 2)) (cc * 1)
            (cAmp / 1) - coreR / (1 * 2))
        + (fractalPatterns primary (t * 2) (coreR / (2 * 2)) (cc * 2)
            (cAmp / 2) - coreR / (2 * 2))
        + (fractalPatterns primary (t * 3) (coreR / (3 * 2)) (cc * 3)
            (cAmp / 3) - coreR / (3 * 2))) coreR ∧
      min (coreR
        + (fractalPatterns primary (t * 1) (coreR / (1 * 2)) (cc * 1)
            (cAmp / 1) - coreR / (1 * 2))
        + (fractalPatterns primary (t * 2) (coreR / (2 * 2)) (cc * 2)
            (cAmp / 2) - coreR / (2 * 2))
        + (fractalPatterns primary (t * 3) (coreR / (3 * 2)) (cc * 3)
            (cAmp / 3) - coreR / (3 * 2))) coreR ≤ size := by
  have hf1 := fractalPatterns_nonneg primary (t * 1) (coreR / (1 * 2))
    (cc * 1) (cAmp / 1) (by linarith) (by linarith) (by linarith)
    (by rw [div_one]; exact h1)
  have hf2 := fractalPatterns_nonneg primary (t * 2) (coreR / (2 * 2))
    (cc * 2) (cAmp / 2) (by linarith) (by linarith) (by linarith)
    (by linarith)
  have hf3 := fractalPatterns_nonneg primary (t * 3) (coreR / (3 * 2))
    (cc * 3) (cAmp / 3) (by linarith) (by linarith) (by linarith)
    (by linarith)
  constructor
  · exact le_min (by linarith) hcr0
  · exact le_trans (min_le_right _ _) hcrs

/-- The clamped core radius lies in `[0, size]` for documented parameter
ranges and core-eligible layer indices. -/
theorem coreRadiusFinal_mem {params : GenParams} {t : ℝ} {i : ℕ}
    (primary : PatternName)
    (hsize : 0 < params.size)
    (hc0 : 0 ≤ params.complexity) (hc1 : params.complexity ≤ 1)
    (ht : 0 ≤ t) (hi : i < numLayers params)
    (hcore : (numLayers params : ℝ) * 0.6 ≤ (i : ℝ)) :
    0 ≤ coreRadiusFinal params primary t i ∧
      coreRadiusFinal params primary t i ≤ params.size := by
  obtain ⟨hlp0, hlp1⟩ := layerProgress_mem hi
  obtain ⟨hcur0, hcurs⟩ := currentRadius_mem hsize hi
  obtain ⟨hamp0, hamp1⟩ := layerAmplitude_mem i hc0 hc1
  have hL := three_le_numLayers params
  have hLr : (3 : ℝ) ≤ (numLayers params : ℝ) := by exact_mod_cast hL
  have hpos : (0 : ℝ) < (numLayers params : ℝ) - 1 := by linarith
  -- the core condition forces layerProgress ≥ 3/5
  have hlp35 : 3/5 ≤ layerProgress params i := by
    unfold layerProgress
    rw [le_div_iff₀ hpos]
    nlinarith
  have hca0 : 0 ≤ layerAmplitude params i * (2 - layerProgress params i) := by
    nlinarith
  have hca1 : layerAmplitude params i * (2 - layerProgress params i)
      ≤ 27/40 := by nlinarith
  have hcr0 : 0 ≤ currentRadius params i * 0.25 := by linarith
  have hcrs : currentRadius params i * 0.25 ≤ params.size := by linarith
  simp only [coreRadiusFinal, Nat.cast_one, Nat.cast_ofNat]
  exact core_sum_mem ht hcr0 hcrs hca0 hca1

end Autograph

namespace Autograph

/-- Every point of one composer layer lies within `size` of the origin,
for documented parameter ranges. -/
theorem layerPoints_bounded {params : GenParams} {off t : ℝ} {i : ℕ}
    (primary secondary : PatternName)
    (hsize : 0 < params.size)
    (hc0 : 0 ≤ params.complexity) (hc1 : params.complexity ≤ 1)
    (ht : 0 ≤ t) (hoff : |off| ≤ 3/40) (hi : i < numLayers params) :
    ∀ p ∈ layerPoints params primary secondary off t i,
      Real.sqrt (p.x ^ 2 + p.y ^ 2) ≤ params.size := by
  intro p hp
  simp only [layerPoints, List.mem_cons, List.mem_append] at hp
  rcases hp with rfl | hp
  · show Real.sqrt
        ((mainRadius params primary secondary off t i * Real.cos t) ^ 2 +
          (mainRadius params primary secondary off t i * Real.sin t) ^ 2)
      ≤ params.size
    rw [radial_dist]
    rw [abs_of_nonneg
      (mainRadius_mem primary secondary hsize hc0 hc1 ht hoff hi).1]
    exact (mainRadius_mem primary secondary hsize hc0 hc1 ht hoff hi).2
  · rcases hp with hp | hp
    · split_ifs at hp with hcf
      · obtain ⟨k, _, rfl⟩ := List.mem_map.mp hp
        exact petalPoint_bounded _ _ _ _ _ _ _ _ _ hsize
      · exact absurd hp (List.not_mem_nil p)
    · split_ifs at hp with hcore
      · rw [List.mem_singleton] at hp
        subst hp
        show Real.sqrt
            ((coreRadiusFinal params primary t i
                * Real.cos (t + (i : ℝ) * (2 * π * PHI_INV))) ^ 2 +
              (coreRadiusFinal params primary t i
                * Real.sin (t + (i : ℝ) * (2 * π * PHI_INV))) ^ 2)
          ≤ params.size
        rw [radial_dist]
        rw [abs_of_nonneg
          (coreRadiusFinal_mem primary hsize hc0 hc1 ht hi hcore).1]
        exact (coreRadiusFinal_mem primary hsize hc0 hc1 ht hi hcore).2
      · exact absurd hp (List.not_mem_nil p)

/-- C1 (amended): for every parameter set within the documented ranges
(`size > 0`, `complexity ∈ [0,1]`, `symmetry ∈ [1/2,1]`), every RNG draw
in `[0,1)` and every angle `t ∈ [0, 2π)`, every point returned by the
per-angle function produced by `finalPookalam` — across all three layers —
satisfies `sqrt (x² + y²) ≤ params.size`. -/
theorem c1_bounding_invariant {params : GenParams} {u1 u2 u3 t : ℝ}
    (hsize : 0 < params.size)
    (hc0 : 0 ≤ params.complexity) (hc1 : params.complexity ≤ 1)
    (hsym0 : 1/2 ≤ params.symmetry) (hsym1 : params.symmetry ≤ 1)
    (hu3a : 0 ≤ u3) (hu3b : u3 < 1)
    (ht0 : 0 ≤ t) (ht2 : t < 2 * π) :
    ∀ p ∈ finalPookalam params u1 u2 u3 t,
      Real.sqrt (p.x ^ 2 + p.y ^ 2) ≤ params.size := by
  intro p hp
  have hsf : symmetryFactor params = params.symmetry := by
    unfold symmetryFactor
    rw [if_neg (by intro h; rw [h] at hsym0; norm_num at hsym0)]
  have hoff : |(1 - symmetryFactor params) * (u3 - 0.5) * 0.3| ≤ 3/40 := by
    rw [hsf, abs_mul, abs_mul]
    have h1 : |1 - params.symmetry| ≤ 1/2 := by
      rw [abs_le]; constructor <;> nlinarith
    have h2 : |u3 - 0.5| ≤ 1/2 := by
      rw [abs_le]; constructor <;> nlinarith
    have h3 : |(0.3 : ℝ)| = 0.3 := by norm_num
    rw [h3]
    nlinarith [abs_nonneg (1 - params.symmetry), abs_nonneg (u3 - 0.5)]
  simp only [finalPookalam, List.mem_flatMap, List.mem_range] at hp
  obtain ⟨i, hi, hpi⟩ := hp
  exact layerPoints_bounded (selectPattern u1) (selectPattern u2) hsize hc0
    hc1 ht0 hoff hi p hpi

/-- Witness for `c1_bounding_invariant`: the `traditional` preset at
`t = 0` and zero draws. -/
theorem c1_bounding_invariant_witness :
    ((0:ℝ) < 100 ∧ (0:ℝ) ≤ 0.5 ∧ (0.5:ℝ) ≤ 1 ∧ (1/2:ℝ) ≤ 1 ∧ (1:ℝ) ≤ 1 ∧
      (0:ℝ) ≤ 0 ∧ (0:ℝ) < 1 ∧ (0:ℝ) ≤ 0 ∧ (0:ℝ) < 2 * π) ∧
    ∀ p ∈ finalPookalam
        { size := 100, density := 0.6, petals := 8, style := 1,
          complexity := 0.5, symmetry := 1 } 0 0 0 0,
      Real.sqrt (p.x ^ 2 + p.y ^ 2) ≤
        ({ size := 100, density := 0.6, petals := 8, style := 1,
           complexity := 0.5, symmetry := 1 } : GenParams).size := by
  have hπ := Real.pi_pos
  refine ⟨⟨by norm_num, by norm_num, by norm_num, by norm_num, by norm_num,
    by norm_num, by norm_num, by norm_num, by linarith⟩, ?_⟩
  exact c1_bounding_invariant (by norm_num) (by norm_num) (by norm_num)
    (by norm_num) (by norm_num) (by norm_num) (by norm_num) (by norm_num)
    (by linarith)

end Autograph

namespace Autograph

/-- Parameter record for the C1 counterexample: all numeric fields finite
and `size > 0`, but `complexity` far outside its documented `0–1` range. -/
noncomputable def c1CexParams : GenParams :=
  { size := 1, density := 0.3, petals := 10, style := 1,
    complexity := 33, symmetry := 1 }

/-- The main-ring point of a layer is always a member of that layer's
point list. -/
theorem mainPoint_mem_layerPoints (params : GenParams)
    (pr sec : PatternName) (off t : ℝ) (i : ℕ) :
    ({ x := mainRadius params pr sec off t i * Real.cos t,
       y := mainRadius params pr sec off t i * Real.sin t,
       depth := (i : ℝ) * 50, layer := .main,
       color := ⌊((i : ℝ) * 7) / ((numLayers params : ℕ) : ℝ)⌋,
       pattern := pr } : PookalamPoint)
      ∈ layerPoints params pr sec off t i := by
  simp only [layerPoints]
  exact List.mem_cons_self _ _

/-- C1 counterexample: with only the claim's stated precondition (finite
fields, `size > 0`), the bounding invariant fails.  At `complexity = 33`
(outside the documented 0–1 range) the layer-0 main-ring blend becomes
strongly negative: its absolute value exceeds `size`, so the emitted main
point lies outside the bounding circle at `t = 3π/14`. -/
theorem c1_counterexample :
    0 < c1CexParams.size ∧ 0 ≤ 3 * π / 14 ∧ 3 * π / 14 < 2 * π ∧
    ∃ p ∈ finalPookalam c1CexParams 0 0 0 (3 * π / 14),
      c1CexParams.size < Real.sqrt (p.x ^ 2 + p.y ^ 2) := by
  have hπ : (0:ℝ) < π := Real.pi_pos
  have hsel : selectPattern (0:ℝ) = .fibonacci := by
    have h0 : (⌊(0:ℝ) * 5⌋ : ℤ) = 0 := by norm_num
    simp [selectPattern, h0, patternTypes]
  have hsf : symmetryFactor c1CexParams = 1 := by
    unfold symmetryFactor c1CexParams
    norm_num
  have hoff0 : (1 - symmetryFactor c1CexParams) * ((0:ℝ) - 0.5) * 0.3 = 0 := by
    rw [hsf]; ring
  have hL : numLayers c1CexParams = 3 := by
    have h3 : (⌊(0.3:ℝ) * 10⌋ : ℤ) = 3 := by norm_num
    simp [numLayers, c1CexParams, h3]
  have hlp : layerProgress c1CexParams 0 = 0 := by
    simp [layerProgress]
  have hcur : currentRadius c1CexParams 0 = 1 := by
    rw [currentRadius, hlp]
    show (1:ℝ) * (1 - 0 * 0.9) = 1
    norm_num
  have hcf : complexityFactor c1CexParams = 33 := by
    unfold complexityFactor c1CexParams
    norm_num
  have hamp : layerAmplitude c1CexParams 0 = 5 := by
    rw [layerAmplitude, hlp, hcf]
    norm_num
  have hmp : mainPetals c1CexParams = 10 := by
    have h10 : (⌊(10:ℝ)⌋ : ℤ) = 10 := by norm_num
    simp [mainPetals, c1CexParams, h10]
  have hblend : Real.sin (layerProgress c1CexParams 0 * π) = 0 := by
    rw [hlp, zero_mul, Real.sin_zero]
  have hfs : 1 ≤ fibScale (3 * π / 14) := by
    refine one_le_fibScale ?_
    positivity
  have harg : ((10:ℤ):ℝ) * 0.7 * (3 * π / 14) = π / 2 + π := by
    push_cast; ring
  have hsin : Real.sin (((10:ℤ):ℝ) * 0.7 * (3 * π / 14)) = -1 := by
    rw [harg, Real.sin_add_pi, Real.sin_pi_div_two]
  have hVal : mainRadius c1CexParams .fibonacci .fibonacci 0 (3 * π / 14) 0
      ≤ -2 := by
    simp only [mainRadius, hblend, hcur, hamp, hmp, add_zero, mul_zero,
      zero_add, sub_zero, mul_one]
    simp only [fractalPatterns, add_zero, hsin]
    have hmin := min_le_left
      ((1:ℝ) * fibScale (3 * π / 14) * (1 + 5 * 0.6 * -1)) 1
    have : (1:ℝ) * fibScale (3 * π / 14) * (1 + 5 * 0.6 * -1) ≤ -2 := by
      nlinarith
    linarith
  refine ⟨by norm_num [c1CexParams], by positivity, by nlinarith, ?_⟩
  refine ⟨_, List.mem_flatMap.mpr
    ⟨0, List.mem_range.mpr (by rw [hL]; norm_num),
      mainPoint_mem_layerPoints c1CexParams (selectPattern 0)
        (selectPattern 0)
        ((1 - symmetryFactor c1CexParams) * ((0:ℝ) - 0.5) * 0.3)
        (3 * π / 14) 0⟩, ?_⟩
  show c1CexParams.size < Real.sqrt
    ((mainRadius c1CexParams (selectPattern 0) (selectPattern 0)
        ((1 - symmetryFactor c1CexParams) * ((0:ℝ) - 0.5) * 0.3)
        (3 * π / 14) 0 * Real.cos (3 * π / 14)) ^ 2 +
      (mainRadius c1CexParams (selectPattern 0) (selectPattern 0)
        ((1 - symmetryFactor c1CexParams) * ((0:ℝ) - 0.5) * 0.3)
        (3 * π / 14) 0 * Real.sin (3 * π / 14)) ^ 2)
  rw [radial_dist, hsel, hoff0]
  rw [abs_of_nonpos (by linarith [hVal])]
  have hone : c1CexParams.size = 1 := rfl
  rw [hone]
  linarith [hVal]

end Autograph

namespace Autograph

/-! ## C7: petal-detail gating -/

/-- C7 (amended): for every parameter set with `0 < complexity ≤ 0.4`, the
per-angle function emits no petal-detail point at any angle.  (At
`complexity = 0` the JS `||` default replaces it by `0.7`, which passes
the `> 0.4` gate — see the counterexample.) -/
theorem c7_no_petal_detail {params : GenParams} {u1 u2 u3 t : ℝ}
    (hc0 : 0 < params.complexity) (hc1 : params.complexity ≤ 0.4) :
    ∀ p ∈ finalPookalam params u1 u2 u3 t, p.layer ≠ Layer.petals := by
  intro p hp
  have hcf : complexityFactor params = params.complexity := by
    unfold complexityFactor
    rw [if_neg (ne_of_gt hc0)]
  simp only [finalPookalam, List.mem_flatMap, List.mem_range] at hp
  obtain ⟨i, _, hpi⟩ := hp
  simp only [layerPoints, List.mem_cons, List.mem_append] at hpi
  rcases hpi with rfl | hpi
  · simp
  · rcases hpi with hpi | hpi
    · rw [if_neg (by rw [hcf]; intro h; linarith)] at hpi
      exact absurd hpi (List.not_mem_nil p)
    · split_ifs at hpi with h
      · rw [List.mem_singleton] at hpi
        subst hpi
        simp
      · exact absurd hpi (List.not_mem_nil p)

/-- Witness for `c7_no_petal_detail` at `complexity = 0.3`. -/
theorem c7_no_petal_detail_witness :
    (0:ℝ) < 0.3 ∧ (0.3:ℝ) ≤ 0.4 ∧
    ∀ p ∈ finalPookalam
        { size := 100, density := 0.6, petals := 8, style := 1,
          complexity := 0.3, symmetry := 1 } 0 0 0 1,
      p.layer ≠ Layer.petals :=
  ⟨by norm_num, by norm_num,
    c7_no_petal_detail (by norm_num) (by norm_num)⟩

/-- A petal-detail point is a member of its layer's point list whenever
the complexity gate passes and the petal index is in range. -/
theorem petalPoint_mem_layerPoints (params : GenParams)
    (pr sec : PatternName) (off t : ℝ) (i k : ℕ)
    (hcf : 0.4 < complexityFactor params)
    (hk : k < (⌊((mainPetals params : ℤ) : ℝ)
        * (0.5 + complexityFactor params * 0.5)⌋).toNat) :
    petalPoint params.size (currentRadius params i)
        (layerAmplitude params i) (complexityFactor params) t sec i
        ((⌊((mainPetals params : ℤ) : ℝ)
          * (0.5 + complexityFactor params * 0.5)⌋).toNat) k
      ∈ layerPoints params pr sec off t i := by
  simp only [layerPoints]
  refine List.mem_cons_of_mem _ (List.mem_append_left _ ?_)
  rw [if_pos hcf]
  exact List.mem_map.mpr ⟨k, List.mem_range.mpr hk, rfl⟩

/-- Parameter record for the C7 counterexample: `complexity = 0`. -/
noncomputable def c7CexParams : GenParams :=
  { size := 100, density := 0.3, petals := 4, style := 1,
    complexity := 0, symmetry := 1 }

/-- C7 counterexample: at `complexity = 0 ≤ 0.4` the claim demands no
petal-detail points, yet the composer emits one (the `||` default turns
the complexity factor into `0.7`, which passes the `> 0.4` gate). -/
theorem c7_counterexample :
    c7CexParams.complexity ≤ 0.4 ∧
    ∃ p ∈ finalPookalam c7CexParams 0 0 0 0, p.layer = Layer.petals := by
  have hcf : complexityFactor c7CexParams = 0.7 := by
    unfold complexityFactor c7CexParams
    norm_num
  have hL : numLayers c7CexParams = 3 := by
    have h3 : (⌊(0.3:ℝ) * 10⌋ : ℤ) = 3 := by norm_num
    simp [numLayers, c7CexParams, h3]
  have hmp : mainPetals c7CexParams = 4 := by
    have h4 : (⌊(4:ℝ)⌋ : ℤ) = 4 := by norm_num
    simp [mainPetals, c7CexParams, h4]
  have hn : (⌊((mainPetals c7CexParams : ℤ) : ℝ)
      * (0.5 + complexityFactor c7CexParams * 0.5)⌋).toNat = 3 := by
    rw [hmp, hcf]
    norm_num
    rfl
  constructor
  · show (0:ℝ) ≤ 0.4
    norm_num
  · refine ⟨_, List.mem_flatMap.mpr
      ⟨0, List.mem_range.mpr (by rw [hL]; norm_num),
        petalPoint_mem_layerPoints c7CexParams (selectPattern 0)
          (selectPattern 0)
          ((1 - symmetryFactor c7CexParams) * ((0:ℝ) - 0.5) * 0.3) 0 0 0
          (by rw [hcf]; norm_num) (by rw [hn]; norm_num)⟩, rfl⟩

end Autograph

namespace Autograph

/-! ## Animation state machine (`src/components/DrawingCanvas.jsx`,
`startAnimation` lines 974–1006 and `handleReset` lines 831–840).
JS timestamps and the progress cursor are modelled as rationals. -/

/-- The `statusRef` values. -/
inductive Phase where
  | drawing | holding | fading
deriving DecidableEq, Repr

/-- The mutable refs read and written by one animation tick. -/
structure AnimState where
  progress : ℚ
  status : Phase
  completionTimestamp : Option ℚ
  spriteAlpha : ℚ
  pathAlpha : ℚ
  running : Bool
  lastTime : ℚ
deriving DecidableEq, Repr

/-- `handleReset` (lines 831–840): zero the progress, restore both alphas,
return to the drawing phase, clear the completion timestamp, and set
`running` back to `true` when it was `false`. -/
def handleReset (s : AnimState) : AnimState :=
  { progress := 0, spriteAlpha := 1, pathAlpha := 1, status := .drawing,
    completionTimestamp := none,
    running := if s.running = false then true else s.running,
    lastTime := s.lastTime }

/-- One call of `animate(timestamp)` (lines 978–1001): compute the frame
delta, and when running with a non-empty point sequence advance the
drawing / holding / fading phase machine.  `numPoints` is
`points.length`; a `null` completion timestamp coerces to `0` in JS
arithmetic, hence `Option.getD 0`. -/
def animateTick (numPoints : ℕ) (speed holdDuration fadeDuration : ℚ)
    (s : AnimState) (timestamp : ℚ) : AnimState :=
  let deltaTime := timestamp - s.lastTime
  let s1 : AnimState := { s with lastTime := timestamp }
  if s.running = true ∧ 0 < numPoints then
    let progressSpeed := speed * 50 * deltaTime / 1000
    match s.status with
    | .drawing =>
      if (numPoints : ℚ) - 1 ≤ s.progress + progressSpeed then
        { s1 with
          progress := (numPoints : ℚ) - 1,
          status := .holding,
          completionTimestamp := some timestamp }
      else { s1 with progress := s.progress + progressSpeed }
    | .holding =>
      if holdDuration < timestamp - s.completionTimestamp.getD 0 then
        { s1 with
          status := .fading,
          completionTimestamp := some timestamp }
      else s1
    | .fading =>
      let currentAlpha := max 0 (1 - (timestamp - s.completionTimestamp.getD 0)
          / fadeDuration)
      let s2 : AnimState := { s1 with
        spriteAlpha := currentAlpha,
        pathAlpha := currentAlpha }
      if currentAlpha ≤ 0 then handleReset s2 else s2
  else s1

/-- C3: whenever the point sequence is non-empty (and the tick's frame
delta and the speed are non-negative), one animation tick keeps
`progress` within `[0, numPoints-1]`, and in the running drawing phase
`progress` never decreases. -/
theorem c3_progress_invariant (numPoints : ℕ) (speed hold fade : ℚ)
    (s : AnimState) (ts : ℚ)
    (hnp : 1 ≤ numPoints) (hsp : 0 ≤ speed) (hdelta : s.lastTime ≤ ts)
    (h0 : 0 ≤ s.progress) (h1 : s.progress ≤ (numPoints : ℚ) - 1) :
    (0 ≤ (animateTick numPoints speed hold fade s ts).progress ∧
      (animateTick numPoints speed hold fade s ts).progress
        ≤ (numPoints : ℚ) - 1) ∧
    (s.status = .drawing → s.running = true →
      s.progress ≤ (animateTick numPoints speed hold fade s ts).progress) := by
  rcases s with ⟨prog, st, ct, sa, pa, run, lt⟩
  dsimp only at h0 h1 hdelta ⊢
  have hps : 0 ≤ speed * 50 * (ts - lt) / 1000 :=
    div_nonneg (mul_nonneg (mul_nonneg hsp (by norm_num)) (by linarith))
      (by norm_num)
  have hnp1 : (1:ℚ) ≤ (numPoints : ℚ) := by exact_mod_cast hnp
  unfold animateTick handleReset
  dsimp only
  cases run
  · rw [if_neg (by simp)]
    exact ⟨⟨h0, h1⟩, fun _ hcontra => absurd hcontra (by simp)⟩
  · rw [if_pos ⟨rfl, by omega⟩]
    cases st <;> dsimp only
    · -- drawing
      split_ifs with hclamp <;> dsimp only
      · exact ⟨⟨by linarith, le_refl _⟩, fun _ _ => by linarith⟩
      · exact ⟨⟨by linarith, by linarith⟩, fun _ _ => by linarith⟩
    · -- holding
      split_ifs <;> dsimp only <;>
        exact ⟨⟨h0, h1⟩, fun hcontra _ => absurd hcontra (by decide)⟩
    · -- fading
      split_ifs <;> dsimp only <;>
        exact ⟨⟨by linarith, by linarith⟩,
          fun hcontra _ => absurd hcontra (by decide)⟩

/-- Witness for `c3_progress_invariant` at a concrete running drawing
state. -/
theorem c3_progress_invariant_witness :
    ((1:ℕ) ≤ 100 ∧ (0:ℚ) ≤ 2 ∧ (0:ℚ) ≤ 16 ∧ (0:ℚ) ≤ 0 ∧
      (0:ℚ) ≤ ((100:ℕ) : ℚ) - 1) ∧
    ((0 ≤ (animateTick 100 2 1500 2000
        ⟨0, .drawing, none, 1, 1, true, 0⟩ 16).progress ∧
      (animateTick 100 2 1500 2000
        ⟨0, .drawing, none, 1, 1, true, 0⟩ 16).progress ≤ ((100:ℕ) : ℚ) - 1) ∧
    (Phase.drawing = Phase.drawing → true = true →
      (0:ℚ) ≤ (animateTick 100 2 1500 2000
        ⟨0, .drawing, none, 1, 1, true, 0⟩ 16).progress)) :=
  ⟨⟨by norm_num, by norm_num, by norm_num, by norm_num, by norm_num⟩,
    c3_progress_invariant 100 2 1500 2000 ⟨0, .drawing, none, 1, 1, true, 0⟩
      16 (by norm_num) (by norm_num) (by norm_num) (by norm_num)
      (by norm_num)⟩

end Autograph

namespace Autograph

/-- C4: in the running drawing phase with a non-empty sequence, one tick
advances `progress` by exactly `speed * 50 * deltaTime / 1000`; when the
result reaches or exceeds `numPoints - 1` it is clamped there, the phase
becomes holding and the tick timestamp is recorded. -/
theorem c4_drawing_advance (numPoints : ℕ) (speed hold fade : ℚ)
    (s : AnimState) (ts : ℚ)
    (hrun : s.running = true) (hst : s.status = .drawing)
    (hnp : 0 < numPoints) :
    (((numPoints : ℚ) - 1
        ≤ s.progress + speed * 50 * (ts - s.lastTime) / 1000) →
      (animateTick numPoints speed hold fade s ts).progress
          = (numPoints : ℚ) - 1 ∧
        (animateTick numPoints speed hold fade s ts).status = .holding ∧
        (animateTick numPoints speed hold fade s ts).completionTimestamp
          = some ts) ∧
    ((s.progress + speed * 50 * (ts - s.lastTime) / 1000
        < (numPoints : ℚ) - 1) →
      (animateTick numPoints speed hold fade s ts).progress
          = s.progress + speed * 50 * (ts - s.lastTime) / 1000 ∧
        (animateTick numPoints speed hold fade s ts).status = .drawing) := by
  rcases s with ⟨prog, st, ct, sa, pa, run, lt⟩
  dsimp only at hrun hst ⊢
  subst hrun
  subst hst
  unfold animateTick
  dsimp only
  rw [if_pos ⟨rfl, hnp⟩]
  constructor
  · intro hc
    rw [if_pos hc]
    exact ⟨rfl, rfl, rfl⟩
  · intro hc
    rw [if_neg (not_le.mpr hc)]
    exact ⟨rfl, rfl⟩

/-- Witness for `c4_drawing_advance`: the claim's concrete scenario —
sequence length 100, speed 2, one tick of 1000 ms from the initial state
clamps progress to 99 and enters holding with the tick timestamp. -/
theorem c4_drawing_advance_witness :
    (true = true ∧ Phase.drawing = Phase.drawing ∧ (0:ℕ) < 100 ∧
      ((100:ℕ) : ℚ) - 1 ≤ 0 + 2 * 50 * ((1000:ℚ) - 0) / 1000) ∧
    ((animateTick 100 2 1500 2000
        ⟨0, .drawing, none, 1, 1, true, 0⟩ 1000).progress
          = ((100:ℕ) : ℚ) - 1 ∧
      (animateTick 100 2 1500 2000
        ⟨0, .drawing, none, 1, 1, true, 0⟩ 1000).status = .holding ∧
      (animateTick 100 2 1500 2000
        ⟨0, .drawing, none, 1, 1, true, 0⟩ 1000).completionTimestamp
          = some 1000) ∧
    ((100:ℕ) : ℚ) - 1 = 99 :=
  ⟨⟨rfl, rfl, by norm_num, by norm_num⟩,
    (c4_drawing_advance 100 2 1500 2000
      ⟨0, .drawing, none, 1, 1, true, 0⟩ 1000 rfl rfl (by norm_num)).1
      (by norm_num),
    by norm_num⟩

/-- C10: every reset — the explicit control and the automatic one taken
when the fading alpha reaches 0 — sets `running := true` in addition to
`progress := 0`, both alphas `:= 1` and phase `:= drawing`; resetting
while paused therefore resumes the animation. -/
theorem c10_reset_resumes (numPoints : ℕ) (speed hold fade : ℚ)
    (s : AnimState) (ts : ℚ) :
    ((handleReset s).progress = 0 ∧ (handleReset s).spriteAlpha = 1 ∧
      (handleReset s).pathAlpha = 1 ∧ (handleReset s).status = .drawing ∧
      (handleReset s).running = true) ∧
    (s.running = true → s.status = .fading → 0 < numPoints →
      1 - (ts - s.completionTimestamp.getD 0) / fade ≤ 0 →
      (animateTick numPoints speed hold fade s ts).progress = 0 ∧
        (animateTick numPoints speed hold fade s ts).spriteAlpha = 1 ∧
        (animateTick numPoints speed hold fade s ts).pathAlpha = 1 ∧
        (animateTick numPoints speed hold fade s ts).status = .drawing ∧
        (animateTick numPoints speed hold fade s ts).running = true) := by
  constructor
  · refine ⟨rfl, rfl, rfl, rfl, ?_⟩
    cases h : s.running <;> simp [handleReset, h]
  · intro hrun hst hnp halpha
    rcases s with ⟨prog, st, ct, sa, pa, run, lt⟩
    dsimp only at hrun hst halpha ⊢
    subst hrun
    subst hst
    unfold animateTick
    dsimp only
    rw [if_pos ⟨rfl, hnp⟩]
    rw [if_pos (by rw [max_le_iff]; exact ⟨le_refl 0, halpha⟩)]
    exact ⟨rfl, rfl, rfl, rfl, rfl⟩

/-- Witness for `c10_reset_resumes`: an explicit reset of a paused
holding state resumes (`running` becomes `true`), and the automatic
fade-out reset at `ts = 2000` with `fadeDuration = 2000` restores the
initial drawing state with `running = true`. -/
theorem c10_reset_resumes_witness :
    (handleReset ⟨5, .holding, some 0, 1/2, 1/2, false, 0⟩).running = true ∧
    (true = true ∧ Phase.fading = Phase.fading ∧ (0:ℕ) < 100 ∧
      1 - ((2000:ℚ) - (some (0:ℚ)).getD 0) / 2000 ≤ 0) ∧
    ((animateTick 100 2 1500 2000
        ⟨99, .fading, some 0, 1, 1, true, 0⟩ 2000).progress = 0 ∧
      (animateTick 100 2 1500 2000
        ⟨99, .fading, some 0, 1, 1, true, 0⟩ 2000).status = .drawing ∧
      (animateTick 100 2 1500 2000
        ⟨99, .fading, some 0, 1, 1, true, 0⟩ 2000).running = true) := by
  have h := c10_reset_resumes 100 2 1500 2000
    ⟨99, .fading, some 0, 1, 1, true, 0⟩ 2000
  have h2 := h.2 rfl rfl (by norm_num) (by norm_num)
  have h1 := (c10_reset_resumes 100 2 1500 2000
    ⟨5, .holding, some 0, 1/2, 1/2, false, 0⟩ 0).1
  exact ⟨h1.2.2.2.2, ⟨rfl, rfl, by norm_num, by norm_num⟩,
    h2.1, h2.2.2.2.1, h2.2.2.2.2⟩

end Autograph

namespace Autograph

/-! ## View transform and wheel zoom.  Both `DrawingCanvas` variants use
the same world-coordinate formulas (`toWorldCoords`, lines 275–281 and
773–779); surface/canvas coordinates and JS numbers are modelled as
rationals. -/

/-- `toWorldCoords(cx, ·).x = (cx - width/2) / (scale*zoom) - offset.x`. -/
def toWorldX (width scale zoom offsetX cx : ℚ) : ℚ :=
  (cx - width / 2) / (scale * zoom) - offsetX

/-- `toWorldCoords(·, cy).y = (height/2 - cy) / (scale*zoom) - offset.y`. -/
def toWorldY (height scale zoom offsetY cy : ℚ) : ℚ :=
  (height / 2 - cy) / (scale * zoom) - offsetY

/-- `handleWheel` of the richer variant (lines 1052–1077): new zoom
clamped to `[0.01, 100]`, then the offset recomputed so the world point
under the cursor is preserved.  Returns
`(newZoom, newOffsetX, newOffsetY)`; `deltaYpos` is `e.deltaY > 0`. -/
def handleWheelV2 (width height scale zoom offsetX offsetY mouseX mouseY : ℚ)
    (deltaYpos : Bool) : ℚ × ℚ × ℚ :=
  let zoomFactor : ℚ := 1/10
  let delta := if deltaYpos then -zoomFactor else zoomFactor
  let newZoom := min (max (1/100) (zoom + delta * zoom)) 100
  let worldX := (mouseX - width / 2) / (scale * zoom) - offsetX
  let worldY := (height / 2 - mouseY) / (scale * zoom) - offsetY
  let newOffsetX := (mouseX - width / 2) / (scale * newZoom) - worldX
  let newOffsetY := (height / 2 - mouseY) / (scale * newZoom) - worldY
  (newZoom, newOffsetX, newOffsetY)

/-- `handleWheel` of the simpler variant (lines 510–532): new zoom
clamped to `[0.1, 10]` and the offset adjusted by the difference of
inverse zooms. -/
def handleWheelV1 (width height scale zoom offsetX offsetY mouseX mouseY : ℚ)
    (deltaYpos : Bool) : ℚ × ℚ × ℚ :=
  let zoomFactor : ℚ := 1/10
  let delta := if deltaYpos then -zoomFactor else zoomFactor
  let newZoom := min (max (1/10) (zoom + delta * zoom)) 10
  let newOffsetX := offsetX
      - ((mouseX - width / 2) / scale) * (1 / zoom - 1 / newZoom)
  let newOffsetY := offsetY
      + ((mouseY - height / 2) / scale) * (1 / zoom - 1 / newZoom)
  (newZoom, newOffsetX, newOffsetY)

/-- C5: for every wheel-zoom event, in both `handleWheel` variants, the
world coordinate of the cursor's surface position under the old
`(zoom, offset)` equals the one under the new `(zoom, offset)` computed
by the handler (exact in the rational model of JS arithmetic). -/
theorem c5_zoom_pivot
    (width height scale zoom offsetX offsetY mouseX mouseY : ℚ)
    (deltaYpos : Bool) :
    (toWorldX width scale
        (handleWheelV2 width height scale zoom offsetX offsetY mouseX mouseY
          deltaYpos).1
        (handleWheelV2 width height scale zoom offsetX offsetY mouseX mouseY
          deltaYpos).2.1 mouseX
      = toWorldX width scale zoom offsetX mouseX) ∧
    (toWorldY height scale
        (handleWheelV2 width height scale zoom offsetX offsetY mouseX mouseY
          deltaYpos).1
        (handleWheelV2 width height scale zoom offsetX offsetY mouseX mouseY
          deltaYpos).2.2 mouseY
      = toWorldY height scale zoom offsetY mouseY) ∧
    (toWorldX width scale
        (handleWheelV1 width height scale zoom offsetX offsetY mouseX mouseY
          deltaYpos).1
        (handleWheelV1 width height scale zoom offsetX offsetY mouseX mouseY
          deltaYpos).2.1 mouseX
      = toWorldX width scale zoom offsetX mouseX) ∧
    (toWorldY height scale
        (handleWheelV1 width height scale zoom offsetX offsetY mouseX mouseY
          deltaYpos).1
        (handleWheelV1 width height scale zoom offsetX offsetY mouseX mouseY
          deltaYpos).2.2 mouseY
      = toWorldY height scale zoom offsetY mouseY) := by
  unfold handleWheelV1 handleWheelV2 toWorldX toWorldY
  dsimp only
  refine ⟨by ring, by ring, ?_, ?_⟩ <;>
    · simp only [div_mul_eq_div_div, one_div, div_eq_mul_inv, mul_sub]
      ring

end Autograph

namespace Autograph

/-! ## Point sampler (`EquationPlotter`, richer variant, lines 618–670).
A JS number that may be non-finite is modelled as `Option ℝ` (`none` for
NaN/±Infinity); `Number.isFinite` is `Option.isSome`. -/

/-- A JS floating-point value: `some r` when finite, `none` otherwise. -/
abbrev JsNum : Type := Option ℝ

/-- A sampled point as pushed by `EquationPlotter`. -/
structure SamplePoint where
  x : JsNum
  y : JsNum

/-- The sampler's mode strings. -/
inductive PlotMode where
  | fractal | oneD | parametricMode | implicitMode
deriving DecidableEq, Repr

/-- `EquationPlotter` (lines 618–670).  Each `for` loop over a real
counter `v = start; v ≤/< bound; v += step` is rendered as a map over
`k < count` with `v = start + k*step`; the counts are exact for the
loops' bounds (for the implicit mode, for a positive-extent view, which
is the only way the component invokes it).  The fractal branch appends
`equation(t)`'s points unconditionally; the 1d and parametric branches
drop non-finite samples; the implicit branch pushes grid coordinates
when `|value| < 0.1` (false for non-finite values). -/
noncomputable def equationPlotter (mode : PlotMode)
    (equation : ℝ → List SamplePoint) (oneD : ℝ → JsNum)
    (par : ℝ → Option (JsNum × JsNum)) (impl : ℝ → ℝ → JsNum)
    (resolution : ℕ) (xMin xMax yMin yMax : ℝ) : List SamplePoint :=
  match mode with
  | .fractal =>
    -- t = 0, 2π/(res*20), …: t_k < 2π exactly for k < res*20
    (List.range (resolution * 20)).flatMap
      (fun k => equation ((k : ℝ) * (2 * π / ((resolution : ℝ) * 20))))
  | .oneD =>
    -- x = xMin + k/res, x ≤ xMax ⟺ k ≤ (xMax-xMin)*res
    (List.range ((⌊(xMax - xMin) * (resolution : ℝ)⌋ + 1).toNat)).flatMap
      (fun k =>
        let x := xMin + (k : ℝ) / (resolution : ℝ)
        match oneD x with
        | some y => [⟨some x, some y⟩]
        | none => [])
  | .parametricMode =>
    -- t = -2π + k·4π/(200 res), t ≤ 2π ⟺ k ≤ 200 res
    (List.range (resolution * 200 + 1)).flatMap
      (fun k =>
        let t := -(2 * π)
            + (k : ℝ) * (2 * (2 * π) / ((resolution : ℝ) * 200))
        match par t with
        | some r => if r.1.isSome ∧ r.2.isSome then [⟨r.1, r.2⟩] else []
        | none => [])
  | .implicitMode =>
    (List.range (resolution * 15 + 1)).flatMap (fun i =>
      (List.range (resolution * 15 + 1)).flatMap (fun j =>
        let x := xMin + (i : ℝ) * ((xMax - xMin) / ((resolution : ℝ) * 15))
        let y := yMin + (j : ℝ) * ((yMax - yMin) / ((resolution : ℝ) * 15))
        match impl x y with
        | some v => if |v| < 0.1 then [⟨some x, some y⟩] else []
        | none => []))

/-- C6 (amended): in the 1d, parametric and implicit modes every point
appended to the output has finite `x` and finite `y`; the fractal branch
is excluded — it appends the composer's points unchecked (see the
counterexample). -/
theorem c6_finite_samples (mode : PlotMode)
    (equation : ℝ → List SamplePoint) (oneD : ℝ → JsNum)
    (par : ℝ → Option (JsNum × JsNum)) (impl : ℝ → ℝ → JsNum)
    (resolution : ℕ) (xMin xMax yMin yMax : ℝ)
    (hmode : mode ≠ .fractal) :
    ∀ p ∈ equationPlotter mode equation oneD par impl resolution
        xMin xMax yMin yMax,
      p.x.isSome ∧ p.y.isSome := by
  intro p hp
  cases mode with
  | fractal => exact absurd rfl hmode
  | oneD =>
    simp only [equationPlotter, List.mem_flatMap, List.mem_range] at hp
    obtain ⟨k, _, hpk⟩ := hp
    revert hpk
    cases oneD (xMin + (k : ℝ) / (resolution : ℝ)) <;> intro hpk
    · exact absurd hpk (List.not_mem_nil p)
    · rw [List.mem_singleton] at hpk
      subst hpk
      exact ⟨rfl, rfl⟩
  | parametricMode =>
    simp only [equationPlotter, List.mem_flatMap, List.mem_range] at hp
    obtain ⟨k, _, hpk⟩ := hp
    revert hpk
    cases par (-(2 * π)
        + (k : ℝ) * (2 * (2 * π) / ((resolution : ℝ) * 200)))
    · intro hpk
      exact absurd hpk (List.not_mem_nil p)
    · rename_i r
      dsimp only
      split_ifs with hfin <;> intro hpk
      · rw [List.mem_singleton] at hpk
        subst hpk
        exact hfin
      · exact absurd hpk (List.not_mem_nil p)
  | implicitMode =>
    simp only [equationPlotter, List.mem_flatMap, List.mem_range] at hp
    obtain ⟨i, _, j, _, hpk⟩ := hp
    revert hpk
    cases impl (xMin + (i : ℝ) * ((xMax - xMin) / ((resolution : ℝ) * 15)))
        (yMin + (j : ℝ) * ((yMax - yMin) / ((resolution : ℝ) * 15))) <;>
      intro hpk
    · exact absurd hpk (List.not_mem_nil p)
    · revert hpk
      dsimp only
      split_ifs <;> intro hpk
      · rw [List.mem_singleton] at hpk
        subst hpk
        exact ⟨rfl, rfl⟩
      · exact absurd hpk (List.not_mem_nil p)

/-- Witness for `c6_finite_samples` in 1d mode with a total evaluator. -/
theorem c6_finite_samples_witness :
    (PlotMode.oneD ≠ PlotMode.fractal) ∧
    ∀ p ∈ equationPlotter .oneD (fun _ => []) (fun _ => some 0)
        (fun _ => none) (fun _ _ => none) 1 (-12) 12 (-12) 12,
      p.x.isSome ∧ p.y.isSome :=
  ⟨by decide,
    c6_finite_samples .oneD (fun _ => []) (fun _ => some 0) (fun _ => none)
      (fun _ _ => none) 1 (-12) 12 (-12) 12 (by decide)⟩

/-- C6 counterexample: in fractal mode the sampler appends the source
function's points without any finiteness check, so a source yielding a
non-finite point puts that point in the output. -/
theorem c6_counterexample :
    ∃ p ∈ equationPlotter .fractal (fun _ => [⟨none, none⟩])
        (fun _ => none) (fun _ => none) (fun _ _ => none) 1 (-12) 12 (-12) 12,
      ¬(p.x.isSome ∧ p.y.isSome) := by
  refine ⟨⟨none, none⟩, ?_, by simp⟩
  simp only [equationPlotter]
  refine List.mem_flatMap.mpr ⟨0, List.mem_range.mpr (by norm_num), ?_⟩
  exact List.mem_singleton.mpr rfl

end Autograph

namespace Autograph

/-! ## Fractal-mode path segmenting (`pathSegments`, lines 797–829). -/

/-- The fixed segment colour palette (lines 803–810). -/
def segColors : List String :=
  ["255, 165, 0", "220, 20, 60", "255, 215, 0", "139, 0, 139",
   "0, 191, 255", "50, 205, 50"]

/-- The `for (const point of points)` loop of `pathSegments` (lines
815–824) plus the trailing flush (lines 825–827): push each point into
the current segment, and when the countdown reaches zero emit the
segment, advance the colour index cyclically and draw a fresh countdown
`⌊rand()*400 + 200⌋` from the RNG (`rand i` is the RNG's `i`-th draw;
`drawIdx` counts the draws made so far). -/
def segLoop {α : Type} (rand : ℕ → ℚ) :
    List α → ℕ → ℤ → List α → ℕ → List (String × List α) →
      List (String × List α)
  | [], colorIndex, _, currentSeg, _, acc =>
    if currentSeg.isEmpty then acc
    else acc ++ [(segColors.getD colorIndex "", currentSeg)]
  | p :: rest, colorIndex, pointsUntilChange, currentSeg, drawIdx, acc =>
    if pointsUntilChange - 1 ≤ 0 then
      segLoop rand rest ((colorIndex + 1) % segColors.length)
        ⌊rand drawIdx * 400 + 200⌋ [] (drawIdx + 1)
        (acc ++ [(segColors.getD colorIndex "", currentSeg ++ [p])])
    else
      segLoop rand rest colorIndex (pointsUntilChange - 1)
        (currentSeg ++ [p]) drawIdx acc

/-- `pathSegments` (lines 797–829).  `mseed` is the `mulberry32` stream,
modelled from the spec (its implementation is not among the given
sources): `mseed seed i` is the `i`-th draw of the stream seeded with
`seed`; the source seeds it with `points.length`.  In non-fractal mode
the whole sequence forms one blue segment. -/
def pathSegments {α : Type} (mseed : ℕ → ℕ → ℚ) (fractalMode : Bool)
    (points : List α) : List (String × List α) :=
  if points.isEmpty then []
  else if fractalMode = false then [("52, 152, 219", points)]
  else
    segLoop (mseed points.length) points 0
      ⌊mseed points.length 0 * 400 + 200⌋ [] 1 []

/-- Flattening a `segLoop` result recovers the accumulator, the open
segment and the remaining points, in order. -/
theorem segLoop_flatten {α : Type} (rand : ℕ → ℚ) (ps : List α) :
    ∀ (ci : ℕ) (puc : ℤ) (cur : List α) (di : ℕ)
      (acc : List (String × List α)),
      (segLoop rand ps ci puc cur di acc).flatMap Prod.snd
        = acc.flatMap Prod.snd ++ cur ++ ps := by
  induction ps with
  | nil =>
    intro ci puc cur di acc
    simp only [segLoop]
    split_ifs with h
    · rw [List.isEmpty_iff.mp h]
      simp
    · simp
  | cons p rest ih =>
    intro ci puc cur di acc
    simp only [segLoop]
    split_ifs with h
    · rw [ih]
      simp
    · rw [ih]
      simp

/-- Lists of equal length are simultaneously empty. -/
theorem isEmpty_congr {α β : Type} {l : List α} {l' : List β}
    (h : l.length = l'.length) : l.isEmpty = l'.isEmpty := by
  cases l <;> cases l' <;> simp_all

/-- The shape (colour and length of every segment) of a `segLoop` result
depends only on the lengths of the point list and of the open segment,
not on the point values. -/
theorem segLoop_shape {α β : Type} (rand : ℕ → ℚ) (ps : List α) :
    ∀ (qs : List β) (ci : ℕ) (puc : ℤ) (cur : List α) (cur' : List β)
      (di : ℕ) (acc : List (String × List α))
      (acc' : List (String × List β)),
      ps.length = qs.length → cur.length = cur'.length →
      acc.map (fun s => (s.1, s.2.length))
        = acc'.map (fun s => (s.1, s.2.length)) →
      (segLoop rand ps ci puc cur di acc).map (fun s => (s.1, s.2.length))
        = (segLoop rand qs ci puc cur' di acc').map
            (fun s => (s.1, s.2.length)) := by
  induction ps with
  | nil =>
    intro qs ci puc cur cur' di acc acc' hlen hcur hacc
    rw [List.length_nil] at hlen
    rw [List.eq_nil_of_length_eq_zero hlen.symm]
    simp only [segLoop]
    rw [← isEmpty_congr hcur]
    split_ifs with h
    · exact hacc
    · simp only [List.map_append, hacc, List.map_cons, List.map_nil, hcur]
  | cons p rest ih =>
    intro qs ci puc cur cur' di acc acc' hlen hcur hacc
    cases qs with
    | nil => exact absurd hlen (by simp)
    | cons q qrest =>
      simp only [List.length_cons, Nat.add_right_cancel_iff] at hlen
      simp only [segLoop]
      split_ifs with h
      · refine ih qrest _ _ [] [] _ _ _ hlen rfl ?_
        simp only [List.map_append, hacc, List.map_cons, List.map_nil]
        have : (cur ++ [p]).length = (cur' ++ [q]).length := by
          simp [hcur]
        rw [this]
      · refine ih qrest _ _ (cur ++ [p]) (cur' ++ [q]) _ _ _ hlen
          (by simp [hcur]) hacc

/-- C8: the fractal-mode segmenting partitions the point sequence with no
gaps and no overlaps — the concatenation of the segments' point lists in
segment order is the input sequence with every point value unchanged —
and the segment boundaries (colours and sizes) depend only on the
sequence length, through the RNG seeded with the total point count. -/
theorem c8_segment_partition {α : Type} (mseed : ℕ → ℕ → ℚ)
    (points : List α) :
    (pathSegments mseed true points).flatMap Prod.snd = points ∧
    (∀ qs : List α, qs.length = points.length →
      (pathSegments mseed true qs).map (fun s => (s.1, s.2.length))
        = (pathSegments mseed true points).map (fun s => (s.1, s.2.length))) := by
  constructor
  · unfold pathSegments
    split_ifs with h h2
    · rw [List.isEmpty_iff.mp h]
      simp
    · exact h2.elim
    · rw [segLoop_flatten]
      simp
  · intro qs hlen
    unfold pathSegments
    rw [isEmpty_congr hlen, hlen]
    split_ifs with h h2
    · rfl
    · exact h2.elim
    · exact segLoop_shape (mseed points.length) qs points 0
        ⌊mseed points.length 0 * 400 + 200⌋ [] [] 1 [] [] hlen rfl rfl

/-- Witness for `c8_segment_partition` on a concrete three-point list
with a constant RNG model. -/
theorem c8_segment_partition_witness :
    (pathSegments (fun _ _ => (0:ℚ)) true [1, 2, 3]).flatMap Prod.snd
        = [1, 2, 3] ∧
    ([4, 5, 6] : List ℕ).length = ([1, 2, 3] : List ℕ).length ∧
    (pathSegments (fun _ _ => (0:ℚ)) true [4, 5, 6]).map
        (fun s => (s.1, s.2.length))
      = (pathSegments (fun _ _ => (0:ℚ)) true [1, 2, 3]).map
          (fun s => (s.1, s.2.length)) :=
  ⟨(c8_segment_partition (fun _ _ => (0:ℚ)) [1, 2, 3]).1, rfl,
    (c8_segment_partition (fun _ _ => (0:ℚ)) [1, 2, 3]).2 [4, 5, 6] rfl⟩

end Autograph
